import Mathlib

/-!
Shallow embedding of the op-challenger fault package (loader.go and the
fault responder in player.go), together with the pieces of the `fault`
types package (Position, Claim) that those files use.  Go functions that
return `(value, error)` pairs are embedded as `Except GoError _` or as
explicit pairs with an `Option GoError` component, matching the shape of
the Go returns.  Remote contract calls (`ClaimFetcher`) are embedded as
pure fields of a record: the loader makes each call at most once per
index per operation, so a deterministic functional oracle captures any
single execution.
-/

/-- Go `error` values; equality models Go's `errors.Is` on the sentinel
errors used by the tests.  The payload is an abstract code. -/
structure GoError where
  code : Nat
deriving DecidableEq

/-- Go `[32]byte`.  The byte-level structure is never inspected by the
code under study, only copied, so a list of bytes suffices. -/
abbrev Bytes32 := List UInt8

/-- The Go zero value of `[32]byte`: 32 zero bytes. -/
def zeroBytes32 : Bytes32 := List.replicate 32 0

/-- Modelled from the spec: the `Position` value type of the fault types
package is not under src (only its use sites in loader.go are).  The
spec defines a position as a single unsigned generalized index `g`
(root `g = 1`, left child `2g`, right child `2g+1`), so the embedding
carries the generalized index directly. -/
structure Position where
  gindex : Nat
deriving DecidableEq

/-- Modelled from the spec: `fromGeneralizedIndex(value) -> Position`
"constructs from a raw on-chain integer; fails if `value == 0`".  The
body of this constructor is not under src; this definition follows the
spec's words, with failure as `Option`. -/
def fromGeneralizedIndex (value : Nat) : Option Position :=
  if value = 0 then none else some ⟨value⟩

/-- Modelled from the spec and the call site loader.go:52: the loader
calls `NewPositionFromGIndex(fetchedClaim.Position.Uint64())` in a
non-fallible position (the Go result type is a bare `Position`), so the
embedding used by the loader is the total function carrying the raw
generalized index through. -/
def NewPositionFromGIndex (value : Nat) : Position :=
  ⟨value⟩

/-- Modelled from the spec: `isRoot()` holds iff `g == 1`. -/
def Position.isRoot (p : Position) : Bool :=
  p.gindex == 1

/-- Modelled from the spec: `ClaimData` is `{ Value: 32-byte hash,
Position }`. -/
structure ClaimData where
  value : Bytes32
  position : Position
deriving DecidableEq

/-- The Go zero value of `ClaimData` (zero bytes, zero `Position`
struct; in this embedding the zero `Position` is gindex 0). -/
def zeroClaimData : ClaimData :=
  { value := zeroBytes32, position := ⟨0⟩ }

/-- Modelled from the spec: `Claim` is `{ ClaimData, Parent: ClaimData,
ParentContractIndex: integer, Countered: bool, Clock: integer }`.
`parentContractIndex` is a Go `int`, embedded as `Int`. -/
structure Claim where
  claimData : ClaimData
  parent : ClaimData
  parentContractIndex : Int
  countered : Bool
  clock : Nat
deriving DecidableEq

/-- Modelled from the spec: `IsRootPosition()` holds iff
`ClaimData.Position` is the tree root. -/
def Claim.IsRootPosition (c : Claim) : Bool :=
  c.claimData.position.isRoot

/-- Modelled from the spec: `DefendsParent()` holds iff the claim's
position is the right child (`2g + 1`) of its parent's position. -/
def Claim.DefendsParent (c : Claim) : Bool :=
  c.claimData.position.gindex == 2 * c.parent.position.gindex + 1

/-- Modelled from the spec: `ValueBytes()` returns the 32-byte value
for transaction encoding. -/
def Claim.ValueBytes (c : Claim) : Bytes32 :=
  c.claimData.value

/-- The anonymous struct returned by `ClaimFetcher.ClaimData`
(loader.go:14-20): `{ParentIndex uint32, Countered bool, Claim [32]byte,
Position *big.Int, Clock *big.Int}`.  The unsigned big integers are
embedded as `Nat` (the loader reads them with `Uint64()`). -/
structure ClaimDataResult where
  parentIndex : Nat
  countered : Bool
  claim : Bytes32
  position : Nat
  clock : Nat
deriving DecidableEq

/-- The `ClaimFetcher` interface (loader.go:13-22), embedded as a pure
oracle: `claimData` is the result of `ClaimData(opts, i)` and
`claimDataLen` the result of `ClaimDataLen(opts)` during one
execution. -/
structure ClaimFetcher where
  claimData : Nat → Except GoError ClaimDataResult
  claimDataLen : Except GoError Nat

/-- `loader.fetchClaim` (loader.go:43-69).  Besides the Go result
`(*Claim, error)` (embedded as `Except GoError Claim`), the embedding
records the list of indices passed to `claimFetcher.ClaimData`, in call
order, so that properties about which remote fetches occur can be
stated. -/
def fetchClaim (f : ClaimFetcher) (arrIndex : Nat) :
    Except GoError Claim × List Nat :=
  match f.claimData arrIndex with
  | .error e => (.error e, [arrIndex])
  | .ok fetchedClaim =>
    let claim : Claim :=
      { claimData :=
          { value := fetchedClaim.claim
            position := NewPositionFromGIndex fetchedClaim.position }
        parent := zeroClaimData
        parentContractIndex := 0
        countered := false
        clock := 0 }
    if claim.IsRootPosition then
      (.ok claim, [arrIndex])
    else
      match f.claimData fetchedClaim.parentIndex with
      | .error e => (.error e, [arrIndex, fetchedClaim.parentIndex])
      | .ok parentClaim =>
        (.ok { claim with
                parent :=
                  { value := parentClaim.claim
                    position := NewPositionFromGIndex parentClaim.position } },
         [arrIndex, fetchedClaim.parentIndex])

/-- The loop body of `loader.FetchClaims` (loader.go:80-87): fetch each
index in the list in order; on the first `fetchClaim` error return
`([]Claim{}, err)`, dropping the claims already fetched, exactly as the
Go early `return` does. -/
def fetchAll (f : ClaimFetcher) : List Nat → List Claim × Option GoError
  | [] => ([], none)
  | i :: rest =>
    match (fetchClaim f i).fst with
    | .error e => ([], some e)
    | .ok c =>
      match fetchAll f rest with
      | (_, some e) => ([], some e)
      | (cs, none) => (c :: cs, none)

/-- `loader.FetchClaims` (loader.go:72-90), returning the Go pair
`([]Claim, error)` as `List Claim × Option GoError`. -/
def FetchClaims (f : ClaimFetcher) : List Claim × Option GoError :=
  match f.claimDataLen with
  | .error e => ([], some e)
  | .ok claimCount => fetchAll f (List.range claimCount)

/-- The `Game` state as the loader uses it (`state.Put`), embedded as a
state-passing step function over an abstract state type `σ`:
`put s c` is the Go call `state.Put(c)` made in state `s`, returning
either the error or the updated state. -/
structure GameState (σ : Type) where
  put : σ → Claim → Except GoError σ

/-- `loader.PushClaims` (loader.go:93-99).  The result records the
final state, the number of `Put` attempts made, and the returned Go
error (`none` is Go's `nil`). -/
def PushClaims {σ : Type} (g : GameState σ) (s : σ) :
    List Claim → σ × Nat × Option GoError
  | [] => (s, 0, none)
  | claim :: rest =>
    match g.put s claim with
    | .error e => (s, 1, some e)
    | .ok s₂ =>
      let out := PushClaims g s₂ rest
      (out.fst, out.snd.fst + 1, out.snd.snd)

/-- Go `*types.Transaction` as the responder observes it: the calldata
(`Data()`) and destination (`To()`, possibly nil). -/
structure Transaction where
  data : List UInt8
  toAddr : Option Nat
deriving DecidableEq

/-- `faultResponderTxData` (player.go:274-277): calldata bytes and
destination address extracted from a transaction. -/
structure FaultResponderTxData where
  data : List UInt8
  dest : Option Nat
deriving DecidableEq

/-- `NewFaultResponderTxData` (player.go:280-285). -/
def NewFaultResponderTxData (tx : Transaction) : FaultResponderTxData :=
  { data := tx.data, dest := tx.toAddr }

/-- The generated `FaultDisputeGameTransactor` binding as the responder
uses it: `Defend(opts, parentIndex, claim)` and
`Attack(opts, parentIndex, claim)` each encode a contract call into a
transaction or fail.  The bindings are generated code outside src, so
they are embedded as an abstract encoding oracle. -/
structure FaultDisputeGameTransactor where
  Defend : Int → Bytes32 → Except GoError Transaction
  Attack : Int → Bytes32 → Except GoError Transaction

/-- `faultResponder` (player.go:167-181), restricted to the fields the
embedded operations read: the contract transactor, the
`MaxPendingTransactions` bound, and whether the shared shutdown context
has been cancelled (`shutdownCtx.Done()` closed). -/
structure FaultResponder where
  fdgContractTransactor : FaultDisputeGameTransactor
  MaxPendingTransactions : Nat
  shutdownCancelled : Bool

/-- `faultResponder.Quit` (player.go:207-210): cancels the shared
shutdown context. -/
def Quit (r : FaultResponder) : FaultResponder :=
  { r with shutdownCancelled := true }

/-- `faultResponder.buildTxData` (player.go:213-231). -/
def buildTxData (r : FaultResponder) (response : Claim) :
    Except GoError FaultResponderTxData :=
  let bigIndex : Int := response.parentContractIndex
  if response.DefendsParent then
    match r.fdgContractTransactor.Defend bigIndex response.ValueBytes with
    | .error e => .error e
    | .ok txdata => .ok (NewFaultResponderTxData txdata)
  else
    match r.fdgContractTransactor.Attack bigIndex response.ValueBytes with
    | .error e => .error e
    | .ok txdata => .ok (NewFaultResponderTxData txdata)

/-- An event the blocking `select` in `handleReceipts`
(player.go:261-269) can observe on its two channels: a receipt arriving
on `receiptsCh` (with its on-chain status bit), or the shutdown
context's `Done` channel being closed. -/
inductive WaitEvent where
  | receipt (status : Bool)
  | shutdown
deriving DecidableEq

/-- `faultResponder.handleReceipts` (player.go:260-271), embedded over
the sequence of events that become available on its channels: the
result is `true` when the loop returns, `false` when no event ever
arrives and the `select` blocks forever.  Both arms of the Go `select`
execute `return`, so the first event of either kind ends the loop. -/
def handleReceipts : List WaitEvent → Bool
  | [] => false
  | WaitEvent.receipt _ :: _ => true
  | WaitEvent.shutdown :: _ => true

/-- `faultResponder.Respond` (player.go:234-256), embedded over the
channel events available to its receipt wait.  The first component is
the call's outcome: `none` when the call is still blocked in
`handleReceipts` (no event ever arrives), otherwise `some` of the Go
return value.  The second component records the submission queues the
call created, as `(capacity, number of Sends)` pairs, in creation
order: the code constructs one fresh `txmgr.NewQueue` with capacity
`r.MaxPendingTransactions` and performs exactly one `queue.Send` on it,
after `buildTxData` succeeds. -/
def Respond (r : FaultResponder) (response : Claim)
    (events : List WaitEvent) :
    Option (Except GoError Unit) × List (Nat × Nat) :=
  match buildTxData r response with
  | .error e => (some (.error e), [])
  | .ok _txData =>
    if handleReceipts events then
      (some (.ok ()), [(r.MaxPendingTransactions, 1)])
    else
      (none, [(r.MaxPendingTransactions, 1)])

/-- The events available to a `Respond` call's wait given the responder
state and the receipts delivered on its completion channel: once `Quit`
has cancelled the shutdown context, the context's `Done` channel is
closed and the shutdown case of the `select` is permanently ready, so a
shutdown event is available before any receipt. -/
def availableEvents (r : FaultResponder) (receipts : List Bool) :
    List WaitEvent :=
  if r.shutdownCancelled then
    WaitEvent.shutdown :: receipts.map WaitEvent.receipt
  else
    receipts.map WaitEvent.receipt

/-- The sentinel error of the loader tests' `mockClaimFetcher` for
`ClaimData` calls. -/
def mockClaimDataError : GoError := ⟨1⟩

/-- The sentinel error of the loader tests' `mockClaimFetcher` for
`ClaimDataLen` calls. -/
def mockClaimLenError : GoError := ⟨2⟩

/-- The sentinel error of the loader tests' `mockGameState.Put`. -/
def mockPutError : GoError := ⟨3⟩

/-- The successful `mockClaimFetcher` of the loader tests: count 1 and
every `ClaimData` call answering parentIndex 0, countered false, zero
claim bytes, position 0, clock 0. -/
def mockClaimFetcher : ClaimFetcher :=
  { claimData := fun _ =>
      .ok { parentIndex := 0, countered := false, claim := zeroBytes32
            position := 0, clock := 0 }
    claimDataLen := .ok 1 }

/-- The `mockClaimFetcher` with `claimDataError` set. -/
def mockClaimFetcherDataErr : ClaimFetcher :=
  { claimData := fun _ => .error mockClaimDataError
    claimDataLen := .ok 1 }

/-- The `mockClaimFetcher` with `claimLenError` set. -/
def mockClaimFetcherLenErr : ClaimFetcher :=
  { claimData := fun _ =>
      .ok { parentIndex := 0, countered := false, claim := zeroBytes32
            position := 0, clock := 0 }
    claimDataLen := .error mockClaimLenError }

/-- The tests' `mockGameState` with `putErrors == false`: every `Put`
succeeds; the state counts `putCalled`. -/
def mockGameStateOk : GameState Nat :=
  { put := fun s _ => .ok (s + 1) }

/-- The tests' `mockGameState` with `putErrors == true`: every `Put`
returns `mockPutError`. -/
def mockGameStateErr : GameState Nat :=
  { put := fun _ _ => .error mockPutError }

/-- The Go zero value `Claim{}` used by the tests. -/
def zeroClaim : Claim :=
  { claimData := zeroClaimData, parent := zeroClaimData
    parentContractIndex := 0, countered := false, clock := 0 }

/-- The claim the successful mock fetcher yields at index 0: position
0 is not the root in this embedding, so the parent (also index 0) is
hydrated. -/
def mockFetchedClaim : Claim :=
  { claimData := { value := zeroBytes32, position := ⟨0⟩ }
    parent := { value := zeroBytes32, position := ⟨0⟩ }
    parentContractIndex := 0, countered := false, clock := 0 }

/-- A transactor whose `Defend` and `Attack` encodings always succeed,
producing distinguishable transactions. -/
def okTransactor : FaultDisputeGameTransactor :=
  { Defend := fun _ _ => .ok { data := [1], toAddr := some 7 }
    Attack := fun _ _ => .ok { data := [2], toAddr := some 7 } }

/-- A concrete responder over `okTransactor` with
`MaxPendingTransactions = 1` and the shutdown context not yet
cancelled. -/
def mockResponder : FaultResponder :=
  { fdgContractTransactor := okTransactor
    MaxPendingTransactions := 1
    shutdownCancelled := false }

/-- A claim whose position (gindex 3) is the right child of its
parent's position (gindex 1), so `DefendsParent()` holds. -/
def defendingClaim : Claim :=
  { claimData := { value := zeroBytes32, position := ⟨3⟩ }
    parent := { value := zeroBytes32, position := ⟨1⟩ }
    parentContractIndex := 1, countered := false, clock := 0 }

/-- A sentinel error for a failing contract-call encoding. -/
def mockEncodingError : GoError := ⟨4⟩

/-- A transactor whose `Defend` and `Attack` encodings always fail. -/
def errTransactor : FaultDisputeGameTransactor :=
  { Defend := fun _ _ => .error mockEncodingError
    Attack := fun _ _ => .error mockEncodingError }

/-- A responder over `errTransactor`. -/
def errResponder : FaultResponder :=
  { fdgContractTransactor := errTransactor
    MaxPendingTransactions := 1
    shutdownCancelled := false }

/-- Every claim `fetchClaim` successfully returns leaves
`ParentContractIndex`, `Countered` and `Clock` at their zero values:
the construction at loader.go:49-54 sets only `Value` and `Position`,
and the parent hydration updates only `Parent`. -/
theorem fetchClaim_ok_fields (f : ClaimFetcher) (i : Nat) (c : Claim)
    (h : (fetchClaim f i).fst = .ok c) :
    c.parentContractIndex = 0 ∧ c.countered = false ∧ c.clock = 0 := by
  unfold fetchClaim at h
  split at h
  · simp at h
  · dsimp only at h
    split at h
    · simp only at h
      cases h
      exact ⟨rfl, rfl, rfl⟩
    · split at h
      · simp at h
      · simp only at h
        cases h
        exact ⟨rfl, rfl, rfl⟩

/-- Every element of a successful `fetchAll` run comes from a
successful `fetchClaim` at one of the requested indices. -/
theorem fetchAll_mem (f : ClaimFetcher) (l : List Nat) (c : Claim)
    (h : c ∈ (fetchAll f l).fst) :
    ∃ i ∈ l, (fetchClaim f i).fst = .ok c := by
  induction l with
  | nil => simp [fetchAll] at h
  | cons i rest ih =>
    unfold fetchAll at h
    split at h
    · simp at h
    · rename_i c₀ hc₀
      split at h
      · simp at h
      · rename_i cs hrest
        simp only [List.mem_cons] at h
        cases h with
        | inl h => exact ⟨i, List.mem_cons_self i rest, h ▸ hc₀⟩
        | inr h =>
          have hmem : c ∈ (fetchAll f rest).fst := by
            rw [hrest]; exact h
          obtain ⟨j, hj, hok⟩ := ih hmem
          exact ⟨j, List.mem_cons_of_mem i hj, hok⟩

/-- Whenever `fetchAll` reports an error, its claim list is empty: the
Go loop returns `([]Claim{}, err)` on the first failure. -/
theorem fetchAll_empty_of_err (f : ClaimFetcher) (l : List Nat)
    (cs : List Claim) (e : GoError) (h : fetchAll f l = (cs, some e)) :
    cs = [] := by
  induction l with
  | nil => simp [fetchAll] at h
  | cons i rest ih =>
    unfold fetchAll at h
    split at h
    · cases h; rfl
    · split at h
      · cases h; rfl
      · cases h

/-- `fetchAll` propagates the first per-claim fetch error: if every
index of the prefix fetches successfully and index `i` fails with `e`,
the run returns `([], e)`. -/
theorem fetchAll_first_err (f : ClaimFetcher) (p : List Nat) (i : Nat)
    (rest : List Nat) (e : GoError)
    (hp : ∀ j ∈ p, ∃ c, (fetchClaim f j).fst = .ok c)
    (hi : (fetchClaim f i).fst = .error e) :
    fetchAll f (p ++ i :: rest) = ([], some e) := by
  induction p with
  | nil =>
    simp only [List.nil_append]
    unfold fetchAll
    rw [hi]
  | cons j p ihp =>
    obtain ⟨c, hc⟩ := hp j (List.mem_cons_self j p)
    have hrec := ihp fun k hk => hp k (List.mem_cons_of_mem j hk)
    simp only [List.cons_append]
    unfold fetchAll
    rw [hc, hrec]

/-- When every requested index fetches successfully, `fetchAll` returns
a nil error and one claim per index, positionally matching
`fetchClaim`. -/
theorem fetchAll_all_ok (f : ClaimFetcher) (l : List Nat)
    (hl : ∀ i ∈ l, ∃ c, (fetchClaim f i).fst = .ok c) :
    ∃ cs, fetchAll f l = (cs, none) ∧ cs.length = l.length ∧
      ∀ k, k < l.length →
        ∃ i c, l.get? k = some i ∧ cs.get? k = some c ∧
          (fetchClaim f i).fst = .ok c := by
  induction l with
  | nil =>
    exact ⟨[], rfl, rfl, fun k hk => absurd hk (by simp)⟩
  | cons i rest ih =>
    obtain ⟨c, hc⟩ := hl i (List.mem_cons_self i rest)
    obtain ⟨cs, hcs, hlen, hget⟩ :=
      ih fun j hj => hl j (List.mem_cons_of_mem i hj)
    refine ⟨c :: cs, ?_, by simpa using hlen, ?_⟩
    · unfold fetchAll
      rw [hc, hcs]
    · intro k hk
      cases k with
      | zero => exact ⟨i, c, rfl, rfl, hc⟩
      | succ k =>
        have hk2 : k < rest.length := by
          simpa [Nat.succ_lt_succ_iff] using hk
        obtain ⟨j, d, hj, hd, hok⟩ := hget k hk2
        exact ⟨j, d, hj, hd, hok⟩

/-- Splitting `List.range n` at an index `i < n`. -/
theorem range_split (i n : Nat) (h : i < n) :
    ∃ rest, List.range n = List.range i ++ i :: rest := by
  have hn : n = i + ((n - i - 1) + 1) := by omega
  rw [hn, List.range_add, List.range_succ_eq_map]
  refine ⟨List.map (fun x => i + Nat.succ x) (List.range (n - i - 1)), ?_⟩
  simp [List.map_map, Function.comp]

/-- Claim C1: for every execution of `Loader.FetchClaims`, if the
remote claim-count call or any individual claim-data call (including a
parent-hydration fetch, which `fetchClaim` propagates) errors,
`FetchClaims` returns the empty sequence together with that underlying
error, and it never returns a partially fetched sequence (whenever the
returned error is non-nil, the returned sequence is empty). -/
theorem loader_fetchClaims_fail_fast (f : ClaimFetcher) :
    (∀ e, f.claimDataLen = .error e → FetchClaims f = ([], some e)) ∧
    (∀ n i e, f.claimDataLen = .ok n → i < n →
      (fetchClaim f i).fst = .error e →
      (∀ j, j < i → ∃ c, (fetchClaim f j).fst = .ok c) →
      FetchClaims f = ([], some e)) ∧
    (∀ cs e, FetchClaims f = (cs, some e) → cs = []) := by
  refine ⟨?_, ?_, ?_⟩
  · intro e he
    unfold FetchClaims
    rw [he]
  · intro n i e hn hi hie hpre
    unfold FetchClaims
    rw [hn]
    show fetchAll f (List.range n) = ([], some e)
    obtain ⟨rest, hsplit⟩ := range_split i n hi
    rw [hsplit]
    exact fetchAll_first_err f (List.range i) i rest e
      (fun j hj => hpre j (List.mem_range.mp hj)) hie
  · intro cs e h
    unfold FetchClaims at h
    split at h
    · cases h; rfl
    · exact fetchAll_empty_of_err f _ cs e h

/-- Witness for C1 at the mock fetchers of the loader tests: the
claim-count error and the claim-data error are each propagated with an
empty claim list. -/
theorem loader_fetchClaims_fail_fast_witness :
    FetchClaims mockClaimFetcherLenErr = ([], some mockClaimLenError) ∧
    FetchClaims mockClaimFetcherDataErr = ([], some mockClaimDataError) :=
  ⟨(loader_fetchClaims_fail_fast mockClaimFetcherLenErr).1 mockClaimLenError rfl,
   (loader_fetchClaims_fail_fast mockClaimFetcherDataErr).2.1 1 0
     mockClaimDataError rfl (by decide) rfl
     (fun j hj => absurd hj (by omega))⟩

/-- Claim C7: when the remote source reports claim count `n` and all
`n` claim fetches succeed, `FetchClaims` returns a sequence of exactly
length `n` with a nil error, whose element at index `i` is the claim
fetched from remote index `i`. -/
theorem loader_fetchClaims_all_ok (f : ClaimFetcher) (n : Nat)
    (hn : f.claimDataLen = .ok n)
    (hall : ∀ i, i < n → ∃ c, (fetchClaim f i).fst = .ok c) :
    ∃ cs, FetchClaims f = (cs, none) ∧ cs.length = n ∧
      ∀ i, i < n →
        ∃ c, cs.get? i = some c ∧ (fetchClaim f i).fst = .ok c := by
  obtain ⟨cs, hcs, hlen, hget⟩ :=
    fetchAll_all_ok f (List.range n)
      (fun i hi => hall i (List.mem_range.mp hi))
  refine ⟨cs, ?_, by simpa using hlen, ?_⟩
  · unfold FetchClaims
    rw [hn]
    show fetchAll f (List.range n) = (cs, none)
    exact hcs
  · intro i hi
    have hi2 : i < (List.range n).length := by simpa using hi
    obtain ⟨j, c, hj, hc, hok⟩ := hget i hi2
    rw [List.get?_range hi] at hj
    cases hj
    exact ⟨c, hc, hok⟩

/-- Witness for C7 at the successful mock fetcher (count 1): a
length-1 sequence and nil error. -/
theorem loader_fetchClaims_all_ok_witness :
    ∃ cs, FetchClaims mockClaimFetcher = (cs, none) ∧ cs.length = 1 ∧
      ∀ i, i < 1 →
        ∃ c, cs.get? i = some c ∧
          (fetchClaim mockClaimFetcher i).fst = .ok c :=
  loader_fetchClaims_all_ok mockClaimFetcher 1 rfl
    (fun i hi => by
      have hz : i = 0 := by omega
      subst hz
      exact ⟨_, rfl⟩)

/-- Claim C2: every claim returned by `FetchClaims` has
`ParentContractIndex`, `Countered` and `Clock` at their zero values,
regardless of what the remote source reported for them. -/
theorem loader_fetchClaims_zero_fields (f : ClaimFetcher) (c : Claim)
    (h : c ∈ (FetchClaims f).fst) :
    c.parentContractIndex = 0 ∧ c.countered = false ∧ c.clock = 0 := by
  unfold FetchClaims at h
  split at h
  · simp at h
  · obtain ⟨i, _, hok⟩ := fetchAll_mem f _ c h
    exact fetchClaim_ok_fields f i c hok

/-- Witness for C2 at the successful mock fetcher: the claim it
returns has zero `parentContractIndex`, `countered` and `clock`. -/
theorem loader_fetchClaims_zero_fields_witness :
    mockFetchedClaim.parentContractIndex = 0 ∧
    mockFetchedClaim.countered = false ∧ mockFetchedClaim.clock = 0 :=
  loader_fetchClaims_zero_fields mockClaimFetcher mockFetchedClaim (by decide)

/-- Claim C3: `PushClaims` inserts the claims in list order via `Put`
and stops at the first error.  When the returned error is nil, exactly
one `Put` attempt per supplied claim occurred; when every `Put` the
state can make succeeds, the returned error is nil; and when an error
`e` is returned, the list splits as `p ++ c :: rest` where every claim
of the prefix `p` was `Put` successfully, the `Put` of `c` returned
`e`, and exactly `p.length + 1` `Put` attempts occurred — none for the
claims after `c`. -/
theorem loader_pushClaims_first_error {σ : Type} (g : GameState σ)
    (s : σ) (claims : List Claim) :
    ((PushClaims g s claims).snd.snd = none →
      (PushClaims g s claims).snd.fst = claims.length) ∧
    ((∀ st c, c ∈ claims → ∃ st₂, g.put st c = .ok st₂) →
      (PushClaims g s claims).snd.snd = none) ∧
    (∀ e, (PushClaims g s claims).snd.snd = some e →
      ∃ p c rest s₁, claims = p ++ c :: rest ∧
        PushClaims g s p = (s₁, p.length, none) ∧
        g.put s₁ c = .error e ∧
        (PushClaims g s claims).snd.fst = p.length + 1) := by
  induction claims generalizing s with
  | nil =>
    refine ⟨fun _ => rfl, fun _ => rfl, fun e he => ?_⟩
    simp [PushClaims] at he
  | cons claim rest ih =>
    cases hput : g.put s claim with
    | error e =>
      refine ⟨?_, ?_, ?_⟩
      · intro hnone
        simp [PushClaims, hput] at hnone
      · intro hall
        obtain ⟨st₂, h2⟩ := hall s claim (List.mem_cons_self claim rest)
        rw [hput] at h2
        cases h2
      · intro e2 he2
        have he : e = e2 := by
          simp only [PushClaims, hput] at he2
          exact Option.some.inj he2
        subst he
        exact ⟨[], claim, rest, s, rfl, rfl, hput,
          by simp [PushClaims, hput]⟩
    | ok s₂ =>
      obtain ⟨ih1, ih2, ih3⟩ := ih s₂
      refine ⟨?_, ?_, ?_⟩
      · intro hnone
        have h2 : (PushClaims g s₂ rest).snd.snd = none := by
          simpa [PushClaims, hput] using hnone
        have h3 := ih1 h2
        simp [PushClaims, hput, h3]
      · intro hall
        have h2 := ih2 fun st c hc => hall st c (List.mem_cons_of_mem claim hc)
        simp [PushClaims, hput, h2]
      · intro e he
        have h2 : (PushClaims g s₂ rest).snd.snd = some e := by
          simpa [PushClaims, hput] using he
        obtain ⟨p, c, r2, s₁, hsplit, hpush, hputc, hcount⟩ := ih3 e h2
        refine ⟨claim :: p, c, r2, s₁, by rw [hsplit, List.cons_append],
          ?_, hputc, ?_⟩
        · simp [PushClaims, hput, hpush]
        · simp [PushClaims, hput, hcount]

/-- Witness for C3 at the tests' mock game states and three empty
claims: with an erroring `Put`, the first error is returned after
exactly one attempt; with a succeeding `Put`, three attempts and a nil
error. -/
theorem loader_pushClaims_first_error_witness :
    (∃ p c rest s₁,
      ([zeroClaim, zeroClaim, zeroClaim] : List Claim) = p ++ c :: rest ∧
      PushClaims mockGameStateErr 0 p = (s₁, p.length, none) ∧
      mockGameStateErr.put s₁ c = .error mockPutError ∧
      (PushClaims mockGameStateErr 0
        [zeroClaim, zeroClaim, zeroClaim]).snd.fst = p.length + 1) ∧
    (PushClaims mockGameStateErr 0
      [zeroClaim, zeroClaim, zeroClaim]).snd.fst = 1 ∧
    (PushClaims mockGameStateOk 0
      [zeroClaim, zeroClaim, zeroClaim]).snd.snd = none ∧
    (PushClaims mockGameStateOk 0
      [zeroClaim, zeroClaim, zeroClaim]).snd.fst = 3 := by
  refine ⟨(loader_pushClaims_first_error mockGameStateErr 0
      [zeroClaim, zeroClaim, zeroClaim]).2.2 mockPutError rfl, rfl, ?_, ?_⟩
  · exact (loader_pushClaims_first_error mockGameStateOk 0
      [zeroClaim, zeroClaim, zeroClaim]).2.1
      (fun st c hc => ⟨st + 1, rfl⟩)
  · exact (loader_pushClaims_first_error mockGameStateOk 0
      [zeroClaim, zeroClaim, zeroClaim]).1
      ((loader_pushClaims_first_error mockGameStateOk 0
        [zeroClaim, zeroClaim, zeroClaim]).2.1
        (fun st c hc => ⟨st + 1, rfl⟩))

/-- Claim C4: for every claim `fetchClaim` successfully returns, if its
position is the root it is returned without a parent (the `Parent`
field keeps the zero value) and no parent fetch occurs (the only
`ClaimData` call is at the requested index); otherwise exactly one
additional `ClaimData` call occurs, at the parent index the remote
source reported for the claim, and the returned claim's `Parent` holds
that parent's value and position. -/
theorem loader_fetchClaim_parent_hydration (f : ClaimFetcher) (i : Nat)
    (c : Claim) (h : (fetchClaim f i).fst = .ok c) :
    (c.IsRootPosition = true →
      c.parent = zeroClaimData ∧ (fetchClaim f i).snd = [i]) ∧
    (c.IsRootPosition = false →
      ∃ fetched parentClaim,
        f.claimData i = .ok fetched ∧
        f.claimData fetched.parentIndex = .ok parentClaim ∧
        (fetchClaim f i).snd = [i, fetched.parentIndex] ∧
        c.parent = { value := parentClaim.claim
                     position := NewPositionFromGIndex parentClaim.position } ∧
        c.claimData = { value := fetched.claim
                        position := NewPositionFromGIndex fetched.position }) := by
  cases hd : f.claimData i with
  | error e =>
    have heq : (fetchClaim f i).fst = .error e := by
      simp [fetchClaim, hd]
    rw [heq] at h
    simp at h
  | ok fetched =>
    by_cases hroot :
        ({ claimData :=
             { value := fetched.claim
               position := NewPositionFromGIndex fetched.position }
           parent := zeroClaimData
           parentContractIndex := 0
           countered := false
           clock := 0 } : Claim).IsRootPosition = true
    · have heq : fetchClaim f i =
          (.ok { claimData :=
                   { value := fetched.claim
                     position := NewPositionFromGIndex fetched.position }
                 parent := zeroClaimData
                 parentContractIndex := 0
                 countered := false
                 clock := 0 }, [i]) := by
        simp [fetchClaim, hd, hroot]
      rw [heq] at h
      obtain rfl := (Except.ok.inj h).symm
      rw [heq]
      exact ⟨fun _ => ⟨rfl, rfl⟩,
        fun hf => absurd (hroot.symm.trans hf) (by decide)⟩
    · have hroot2 :
          ({ claimData :=
               { value := fetched.claim
                 position := NewPositionFromGIndex fetched.position }
             parent := zeroClaimData
             parentContractIndex := 0
             countered := false
             clock := 0 } : Claim).IsRootPosition = false := by
        simpa using hroot
      cases hp : f.claimData fetched.parentIndex with
      | error e =>
        have heq : (fetchClaim f i).fst = .error e := by
          simp [fetchClaim, hd, hroot2, hp]
        rw [heq] at h
        simp at h
      | ok parentClaim =>
        have heq : fetchClaim f i =
            (.ok { claimData :=
                     { value := fetched.claim
                       position := NewPositionFromGIndex fetched.position }
                   parent :=
                     { value := parentClaim.claim
                       position := NewPositionFromGIndex parentClaim.position }
                   parentContractIndex := 0
                   countered := false
                   clock := 0 }, [i, fetched.parentIndex]) := by
          simp [fetchClaim, hd, hroot2, hp]
        rw [heq] at h
        obtain rfl := (Except.ok.inj h).symm
        refine ⟨fun ht => absurd (hroot2.symm.trans ht) (by decide),
          fun _ => ⟨fetched, parentClaim, rfl, hp, ?_, rfl, rfl⟩⟩
        rw [heq]

/-- Witness for C4 at the successful mock fetcher, index 0: the
fetched claim is non-root (position 0), so exactly one extra fetch at
the reported parent index 0 occurs and `Parent` is hydrated from it. -/
theorem loader_fetchClaim_parent_hydration_witness :
    (mockFetchedClaim.IsRootPosition = true →
      mockFetchedClaim.parent = zeroClaimData ∧
      (fetchClaim mockClaimFetcher 0).snd = [0]) ∧
    (mockFetchedClaim.IsRootPosition = false →
      ∃ fetched parentClaim,
        mockClaimFetcher.claimData 0 = .ok fetched ∧
        mockClaimFetcher.claimData fetched.parentIndex = .ok parentClaim ∧
        (fetchClaim mockClaimFetcher 0).snd = [0, fetched.parentIndex] ∧
        mockFetchedClaim.parent =
          { value := parentClaim.claim
            position := NewPositionFromGIndex parentClaim.position } ∧
        mockFetchedClaim.claimData =
          { value := fetched.claim
            position := NewPositionFromGIndex fetched.position }) :=
  loader_fetchClaim_parent_hydration mockClaimFetcher 0 mockFetchedClaim rfl

/-- Counterexample to claim C10 as stated: the claim concludes that
the Loader cannot produce a claim whose position has generalized index
0.  It can: the loader's call site (loader.go:52) uses
`NewPositionFromGIndex` non-fallibly on whatever raw index the remote
reports, so on the tests' mock fetcher — which reports `Position` 0,
exactly as `TestLoader_FetchClaims_Succeeds` does — `FetchClaims`
succeeds and returns a claim whose position carries gindex 0, and the
raw-0 construction at the call site does not fail. -/
theorem position_zero_loader_counterexample :
    FetchClaims mockClaimFetcher = ([mockFetchedClaim], none) ∧
    mockFetchedClaim.claimData.position.gindex = 0 ∧
    NewPositionFromGIndex 0 = ⟨0⟩ :=
  ⟨rfl, rfl, rfl⟩

/-- Claim C10, amended: the spec's fallible constructor
`fromGeneralizedIndex` fails exactly when the raw value is 0, and every
`Position` it constructs satisfies `g >= 1`; but the constructor the
loader actually calls, `NewPositionFromGIndex`, is total (its call site
loader.go:52 admits no error) and carries the raw index through, so a
remote source reporting raw index 0 makes the Loader produce a claim
whose position has generalized index 0 — construction never fails
there. -/
theorem position_from_gindex_fails_iff_zero (value : Nat) :
    (fromGeneralizedIndex value = none ↔ value = 0) ∧
    (∀ p, fromGeneralizedIndex value = some p → 1 ≤ p.gindex) ∧
    (NewPositionFromGIndex value).gindex = value := by
  refine ⟨⟨?_, ?_⟩, ?_, rfl⟩
  · intro h
    by_contra hv
    simp [fromGeneralizedIndex, hv] at h
  · intro h
    simp [fromGeneralizedIndex, h]
  · intro p hp
    unfold fromGeneralizedIndex at hp
    by_cases hv : value = 0
    · simp [hv] at hp
    · rw [if_neg hv] at hp
      cases hp
      exact Nat.pos_of_ne_zero hv

/-- Witness for the amended C10 at the concrete raw indices 0 and 1:
the spec constructor fails at 0 and gives `g >= 1` at 1, while the
loader-side constructor maps raw 0 to a position with gindex 0. -/
theorem position_from_gindex_fails_iff_zero_witness :
    (fromGeneralizedIndex 0 = none ↔ (0 : Nat) = 0) ∧
    (∀ p, fromGeneralizedIndex 1 = some p → 1 ≤ p.gindex) ∧
    (NewPositionFromGIndex 0).gindex = 0 :=
  ⟨(position_from_gindex_fails_iff_zero 0).1,
   (position_from_gindex_fails_iff_zero 1).2.1,
   (position_from_gindex_fails_iff_zero 0).2.2⟩

/-- Claim C5: `buildTxData` produces the "defend" contract call exactly
when `DefendsParent()` is true on the response and the "attack" call
otherwise, in both cases passing the response's `ParentContractIndex`
and 32-byte value to the encoder and wrapping the encoded transaction;
it returns an error exactly when the chosen underlying encoding call
fails, and then it is that call's error. -/
theorem responder_buildTxData_selects_call (r : FaultResponder)
    (response : Claim) :
    (response.DefendsParent = true →
      buildTxData r response =
        (r.fdgContractTransactor.Defend response.parentContractIndex
          response.ValueBytes).map NewFaultResponderTxData) ∧
    (response.DefendsParent = false →
      buildTxData r response =
        (r.fdgContractTransactor.Attack response.parentContractIndex
          response.ValueBytes).map NewFaultResponderTxData) ∧
    (∀ e, buildTxData r response = .error e ↔
      (if response.DefendsParent then
        r.fdgContractTransactor.Defend response.parentContractIndex
          response.ValueBytes
      else
        r.fdgContractTransactor.Attack response.parentContractIndex
          response.ValueBytes) = .error e) := by
  by_cases hdp : response.DefendsParent = true
  · cases hcall : r.fdgContractTransactor.Defend response.parentContractIndex
        response.ValueBytes with
    | error e0 =>
      refine ⟨fun _ => ?_, fun hf => absurd (hdp.symm.trans hf) (by decide),
        fun e => ?_⟩
      · simp [buildTxData, hdp, hcall, Except.map]
      · simp [buildTxData, hdp, hcall, Except.map]
    | ok tx =>
      refine ⟨fun _ => ?_, fun hf => absurd (hdp.symm.trans hf) (by decide),
        fun e => ?_⟩
      · simp [buildTxData, hdp, hcall, Except.map]
      · simp [buildTxData, hdp, hcall, Except.map]
  · have hdp2 : response.DefendsParent = false := by simpa using hdp
    cases hcall : r.fdgContractTransactor.Attack response.parentContractIndex
        response.ValueBytes with
    | error e0 =>
      refine ⟨fun ht => absurd (hdp2.symm.trans ht) (by decide), fun _ => ?_,
        fun e => ?_⟩
      · simp [buildTxData, hdp2, hcall, Except.map]
      · simp [buildTxData, hdp2, hcall, Except.map]
    | ok tx =>
      refine ⟨fun ht => absurd (hdp2.symm.trans ht) (by decide), fun _ => ?_,
        fun e => ?_⟩
      · simp [buildTxData, hdp2, hcall, Except.map]
      · simp [buildTxData, hdp2, hcall, Except.map]

/-- Witness for C5: a defending response is encoded with `Defend`, an
attacking one with `Attack`, each with the response's parent contract
index and value bytes. -/
theorem responder_buildTxData_selects_call_witness :
    buildTxData mockResponder defendingClaim =
      (mockResponder.fdgContractTransactor.Defend
        defendingClaim.parentContractIndex
        defendingClaim.ValueBytes).map NewFaultResponderTxData ∧
    buildTxData mockResponder zeroClaim =
      (mockResponder.fdgContractTransactor.Attack
        zeroClaim.parentContractIndex
        zeroClaim.ValueBytes).map NewFaultResponderTxData :=
  ⟨(responder_buildTxData_selects_call mockResponder defendingClaim).1 rfl,
   (responder_buildTxData_selects_call mockResponder zeroClaim).2.1 rfl⟩

/-- Claim C6: `Respond` returns an error exactly when `buildTxData`
fails (and then it is that error); when `buildTxData` succeeds,
`Respond` returns Go's nil error as soon as its wait ends — i.e. as
soon as any event (a receipt of either status, or shutdown) arrives —
and it never returns an error, whatever the receipt's success or revert
status. -/
theorem responder_respond_error_iff_build (r : FaultResponder)
    (response : Claim) (events : List WaitEvent) :
    (∀ e, buildTxData r response = .error e →
      (Respond r response events).fst = some (.error e)) ∧
    (∀ tx, buildTxData r response = .ok tx →
      ((Respond r response events).fst = some (.ok ()) ↔ events ≠ []) ∧
      ∀ e, (Respond r response events).fst ≠ some (.error e)) := by
  refine ⟨?_, ?_⟩
  · intro e he
    simp [Respond, he]
  · intro tx htx
    refine ⟨?_, ?_⟩
    · cases events with
      | nil => simp [Respond, htx, handleReceipts]
      | cons ev rest =>
        cases ev <;> simp [Respond, htx, handleReceipts]
    · intro e
      cases events with
      | nil => simp [Respond, htx, handleReceipts]
      | cons ev rest =>
        cases ev <;> simp [Respond, htx, handleReceipts]

/-- Witness for C6: a reverted receipt (status false) still yields a
nil error; a failing encoder propagates its error from `Respond`. -/
theorem responder_respond_error_iff_build_witness :
    (((Respond mockResponder zeroClaim [WaitEvent.receipt false]).fst =
        some (.ok ()) ↔
      ([WaitEvent.receipt false] : List WaitEvent) ≠ []) ∧
     ∀ e, (Respond mockResponder zeroClaim
        [WaitEvent.receipt false]).fst ≠ some (.error e)) ∧
    (Respond errResponder zeroClaim []).fst =
      some (.error mockEncodingError) :=
  ⟨(responder_respond_error_iff_build mockResponder zeroClaim
      [WaitEvent.receipt false]).2 ⟨[2], some 7⟩ rfl,
   (responder_respond_error_iff_build errResponder zeroClaim []).1
      mockEncodingError rfl⟩

/-- Claim C9: once `Quit` has cancelled the shared shutdown context,
the shutdown arm of the receipt wait's `select` is permanently ready,
so any `Respond` call whose transaction data builds returns a nil
error even if no receipt is ever delivered on its completion channel
(`receipts = []` included). -/
theorem responder_respond_after_quit (r : FaultResponder)
    (response : Claim) (receipts : List Bool) (tx : FaultResponderTxData)
    (htx : buildTxData r response = .ok tx) :
    (Respond (Quit r) response
      (availableEvents (Quit r) receipts)).fst = some (.ok ()) := by
  have htx2 : buildTxData (Quit r) response = .ok tx := htx
  simp only [Quit] at htx2
  simp [availableEvents, Quit, Respond, htx2, handleReceipts]

/-- Witness for C9: after `Quit`, a `Respond` call with zero receipts
delivered returns a nil error. -/
theorem responder_respond_after_quit_witness :
    (Respond (Quit mockResponder) zeroClaim
      (availableEvents (Quit mockResponder) [])).fst = some (.ok ()) :=
  responder_respond_after_quit mockResponder zeroClaim []
    ⟨[2], some 7⟩ rfl

/-- Amended claim C8: each `Respond` call whose transaction data builds
creates its own fresh submission queue (`txmgr.NewQueue` is called
inside `Respond`, player.go:243) with capacity `MaxPendingTransactions`
and performs exactly one `Send` on it; no queue is shared across calls,
so the `MaxPendingTransactions` bound is per call and no global bound
across concurrent `Respond` calls is enforced. -/
theorem responder_queue_per_call (r : FaultResponder) (response : Claim)
    (events : List WaitEvent) (tx : FaultResponderTxData)
    (htx : buildTxData r response = .ok tx) :
    (Respond r response events).snd = [(r.MaxPendingTransactions, 1)] := by
  cases hr : handleReceipts events <;> simp [Respond, htx, hr]

/-- Witness for the amended C8: a single call on the mock responder
creates exactly one queue of capacity 1 and sends once on it. -/
theorem responder_queue_per_call_witness :
    (Respond mockResponder zeroClaim [WaitEvent.shutdown]).snd =
      [(mockResponder.MaxPendingTransactions, 1)] :=
  responder_queue_per_call mockResponder zeroClaim [WaitEvent.shutdown]
    ⟨[2], some 7⟩ rfl

/-- Counterexample to C8 as stated: the claim asserts a single shared
bounded submission queue serializing admission across concurrent
`Respond` calls, so that at most `MaxPendingTransactions` submissions
are in flight at any time.  In the code each `Respond` call constructs
its own queue: two calls on the same responder with
`MaxPendingTransactions = 1` create two queues, each of capacity 1 and
each admitting one submission — two submissions admitted concurrently
through distinct queues, not one shared queue (the combined
queue-creation trace has length 2, not 1). -/
theorem responder_shared_queue_counterexample :
    (Respond mockResponder zeroClaim [WaitEvent.shutdown]).snd ++
      (Respond mockResponder defendingClaim [WaitEvent.shutdown]).snd =
      [(1, 1), (1, 1)] ∧
    ((Respond mockResponder zeroClaim [WaitEvent.shutdown]).snd ++
      (Respond mockResponder defendingClaim
        [WaitEvent.shutdown]).snd).length ≠ 1 := by
  refine ⟨rfl, by decide⟩
